import Mathlib

/-!
Verification development for the devig / EV calculator engine and its
deployment stack. The repository ships only the infrastructure stack
(`lib/discord-bot-lambda-stack.ts`) and a README; the computational engine
(odds parsing, probability conversion, devig, parlay, EV, Kelly) is described
by the specification, so those components are modelled here from the spec and
the stack is embedded from the TypeScript source. All numeric computation is
modelled over exact rationals (ℚ).
-/

set_option autoImplicit false

namespace DevigBot

/-- Errors of the computational core: `DomainError` for values outside the
valid mathematical domain, `ConvergenceError` when the Probit root-finder
exceeds its iteration cap. -/
inductive CalcError where
  | DomainError
  | ConvergenceError
deriving DecidableEq, Repr

/-- The two devig methods selectable in user settings (`wc` / `pb`). -/
inductive DevigMethod where
  | ProportionalWorstCase
  | Probit
deriving DecidableEq, Repr

/-- Modelled from the spec: an Outcome is one side of a market, an American
odds value (signed integer, zero invalid) plus an optional label. -/
structure Outcome where
  odds : Int
  label : Option String := none
deriving DecidableEq, Repr

/-- Modelled from the spec: a MarketQuote is an ordered sequence of Outcomes
representing one wagering market. -/
structure MarketQuote where
  outcomes : List Outcome
deriving DecidableEq, Repr

/-- Modelled from the spec: `odds_to_probability`. Negative odds `o` map to
`(-o) / ((-o) + 100)`, positive odds map to `100 / (o + 100)`. -/
def oddsToProbability (o : Int) : ℚ :=
  if o < 0 then ((-o : Int) : ℚ) / (((-o : Int) : ℚ) + 100)
  else (100 : ℚ) / ((o : ℚ) + 100)

/-- Floating tolerance used by the spec for devig sums and root finding. -/
def tol : ℚ := 1 / 1000000000

/-- Modelled from the spec: `probability_to_odds`, nearest-integer American
odds, sign negative for `p ≥ 0.5`, positive for `p < 0.5`; degenerate inputs
(`p ≤ 0` or `p ≥ 1`) fail with a `DomainError`. -/
def probabilityToOdds (p : ℚ) : Except CalcError Int :=
  if p ≤ 0 ∨ 1 ≤ p then .error .DomainError
  else if (1 : ℚ) / 2 ≤ p then .ok (-(round (100 * p / (1 - p))))
  else .ok (round (100 * (1 - p) / p))

/-- Raw implied probabilities of a market, in outcome order. -/
def rawProbs (m : MarketQuote) : List ℚ :=
  m.outcomes.map (fun o => oddsToProbability o.odds)

/-- Modelled from the spec: ProportionalWorstCase devig — each outcome's fair
probability is its raw implied probability divided by the sum of all raw
implied probabilities. -/
def devigWc (ps : List ℚ) : List ℚ :=
  ps.map (fun p => p / ps.sum)

/-- Modelled from the spec: a numerically stable stand-in for the normal CDF.
The spec leaves the exact approximation open (§9); we use the strictly
monotone rational sigmoid `x ↦ 1/2 + x / (2 (1 + |x|))`, which maps ℚ into
(0,1) like the normal CDF. Every theorem below about the Probit method
depends only on the solver's convergence contract, not on this choice. -/
def normCdf (x : ℚ) : ℚ :=
  1 / 2 + x / (2 * (1 + |x|))

/-- Modelled from the spec: inverse of `normCdf` on (0,1), the stand-in for
the inverse normal CDF used to compute the `z_i`. -/
def normCdfInv (p : ℚ) : ℚ :=
  if (1 : ℚ) / 2 ≤ p then (2 * p - 1) / (2 - 2 * p) else (2 * p - 1) / (2 * p)

/-- Sum of shifted transformed probabilities `Σ Φ(z_i − k)` for the Probit
root-finding equation. -/
def probitSum (zs : List ℚ) (k : ℚ) : ℚ :=
  (zs.map (fun z => normCdf (z - k))).sum

/-- Modelled from the spec: bisection root-finder for the Probit shift `k`,
fuel-bounded; returns `ConvergenceError` when the fuel runs out without the
residual `|Σ Φ(z_i − k) − 1|` reaching the tolerance. -/
def bisect (zs : List ℚ) : Nat → ℚ → ℚ → Except CalcError ℚ
  | 0, _, _ => .error .ConvergenceError
  | fuel + 1, lo, hi =>
    let mid := (lo + hi) / 2
    let g := probitSum zs mid - 1
    if |g| ≤ tol then .ok mid
    else if 0 < g then bisect zs fuel mid hi
    else bisect zs fuel lo mid

/-- Number of midpoint evaluations `bisect` performs (mirrors `bisect`). -/
def bisectSteps (zs : List ℚ) : Nat → ℚ → ℚ → Nat
  | 0, _, _ => 0
  | fuel + 1, lo, hi =>
    let mid := (lo + hi) / 2
    let g := probitSum zs mid - 1
    if |g| ≤ tol then 1
    else if 0 < g then 1 + bisectSteps zs fuel mid hi
    else 1 + bisectSteps zs fuel lo mid

/-- Hard iteration cap of the Probit root-finder (spec: "bounded iteration
count e.g. 100"). -/
def iterationCap : Nat := 100

/-- Initial upper bracket endpoint for the bisection. -/
def bracketHi : ℚ := 2 ^ 30

/-- Modelled from the spec: solve `Σ Φ(z_i − k) = 1` for the scalar shift
`k` by bisection with the hard iteration cap. -/
def probitSolve (zs : List ℚ) : Except CalcError ℚ :=
  bisect zs iterationCap 0 bracketHi

/-- Modelled from the spec: `devig(market, method)`. Markets whose raw
implied probabilities sum to ≤ 1 are rejected with a `DomainError`; otherwise
the selected method produces the fair probabilities, in outcome order. -/
def devig (m : MarketQuote) (method : DevigMethod) : Except CalcError (List ℚ) :=
  let ps := rawProbs m
  if ps.sum ≤ 1 then .error .DomainError
  else
    match method with
    | .ProportionalWorstCase => .ok (devigWc ps)
    | .Probit =>
      let zs := ps.map normCdfInv
      match probitSolve zs with
      | .error e => .error e
      | .ok k => .ok (zs.map (fun z => normCdf (z - k)))

/-- Modelled from the spec: the ParlayCombiner multiplies the per-leg fair
probabilities (independence assumption). -/
def parlayCombine (ps : List ℚ) : ℚ :=
  ps.foldl (fun acc p => acc * p) 1

/-- Modelled from the spec: amount won per 1 unit staked at American odds
`o` — negative odds pay `100/|o|`, positive odds pay `o/100`. -/
def payoutPerUnit (o : Int) : ℚ :=
  if o < 0 then (100 : ℚ) / ((-o : Int) : ℚ) else (o : ℚ) / 100

/-- Modelled from the spec: `compute_ev(bet_odds, fair_probability)` returns
`ev_percent = fair_probability * payout_per_unit − (1 − fair_probability)`
expressed as a percentage of stake; a fair probability outside (0,1) fails
with a `DomainError`. -/
def computeEv (o : Int) (p : ℚ) : Except CalcError ℚ :=
  if p ≤ 0 ∨ 1 ≤ p then .error .DomainError
  else .ok (100 * (p * payoutPerUnit o - (1 - p)))

/-- Kelly variants selectable in user settings. -/
inductive KellyType where
  | Full
  | Half
  | Quarter
deriving DecidableEq, Repr

/-- Scaling divisor of each Kelly variant: full `f*`, half `f*/2`, quarter
`f*/4`. -/
def kellyDivisor : KellyType → ℚ
  | .Full => 1
  | .Half => 2
  | .Quarter => 4

/-- Modelled from the spec: full Kelly fraction
`f* = (p·b − (1 − p)) / b` with `b` the net decimal odds (= payout per
unit), clamped to `[0, 1]`. -/
def kellyFraction (o : Int) (p : ℚ) : ℚ :=
  let b := payoutPerUnit o
  max 0 (min 1 ((p * b - (1 - p)) / b))

/-- Modelled from the spec: recommended stake fraction of bankroll for a
given Kelly variant. -/
def stakeFraction (kt : KellyType) (o : Int) (p : ℚ) : ℚ :=
  kellyFraction o p / kellyDivisor kt

/-- Modelled from the spec: recommended stake amount when the bankroll is
enabled, rounded to 2 decimal places. -/
def recommendedStake (kt : KellyType) (o : Int) (p : ℚ) (bankroll : ℚ) : ℚ :=
  (round (100 * (stakeFraction kt o p * bankroll)) : Int) / 100

/-- Parse error carrying a human-readable reason. -/
structure ParseError where
  msg : String
deriving DecidableEq, Repr

/-- One side of a market expression: a literal odds value or an `avg(...)`
list to be averaged in probability space. -/
inductive SideExpr where
  | lit (odds : Int)
  | avg (odds : List Int)
deriving DecidableEq, Repr

/-- A two-way market leg, `side1/side2`. -/
structure LegOdds where
  side1 : SideExpr
  side2 : SideExpr
deriving DecidableEq, Repr

/-- Drops leading and trailing spaces (spec: whitespace around tokens is
ignored). -/
def trimSpaces (cs : List Char) : List Char :=
  ((cs.dropWhile (fun c => c == ' ')).reverse.dropWhile (fun c => c == ' ')).reverse

/-- Numeric value of a digit string. -/
def digitsVal (cs : List Char) : Nat :=
  cs.foldl (fun n c => 10 * n + (c.toNat - 48)) 0

/-- Modelled from the spec: a natural-number token is a nonempty run of
digits; anything else is malformed. -/
def parseNatDigits (cs : List Char) : Option Nat :=
  if cs.isEmpty then none
  else if cs.all (fun c => c.isDigit) then some (digitsVal cs) else none

/-- Modelled from the spec: a literal signed integer, with optional sign. -/
def parseIntTok (cs : List Char) : Option Int :=
  match cs with
  | '-' :: rest => (parseNatDigits rest).map (fun n => -(n : Int))
  | '+' :: rest => (parseNatDigits rest).map (fun n => (n : Int))
  | _ => (parseNatDigits cs).map (fun n => (n : Int))

/-- Modelled from the spec: an odds token — a literal signed integer,
rejected with a `ParseError` when malformed or zero. -/
def parseOdds (cs : List Char) : Except ParseError Int :=
  match parseIntTok (trimSpaces cs) with
  | none => .error ⟨"malformed integer"⟩
  | some n => if n = 0 then .error ⟨"odds value of zero"⟩ else .ok n

/-- Splits on a separator occurring at parenthesis depth 0, so commas inside
`avg(...)` do not separate legs. -/
def splitTopAux (sep : Char) : List Char → Nat → List Char → List (List Char)
  | [], _, acc => [acc.reverse]
  | c :: rest, depth, acc =>
    if c == '(' then splitTopAux sep rest (depth + 1) (c :: acc)
    else if c == ')' then splitTopAux sep rest (depth - 1) (c :: acc)
    else if c == sep && depth == 0 then acc.reverse :: splitTopAux sep rest 0 []
    else splitTopAux sep rest depth (c :: acc)

/-- Top-level split on a separator character. -/
def splitTop (sep : Char) (cs : List Char) : List (List Char) :=
  splitTopAux sep cs 0 []

/-- Parses each element of a comma-separated odds list; fails on the first
malformed element (all-or-nothing). -/
def parseOddsList : List (List Char) → Except ParseError (List Int)
  | [] => .ok []
  | cs :: rest =>
    match parseOdds cs, parseOddsList rest with
    | .ok n, .ok ns => .ok (n :: ns)
    | .error e, _ => .error e
    | .ok _, .error e => .error e

/-- Modelled from the spec: one market side — either `avg(<int>,<int>,...)`
(empty argument lists rejected) or a literal signed integer. -/
def parseSide (cs0 : List Char) : Except ParseError SideExpr :=
  if (trimSpaces cs0).take 4 = ['a', 'v', 'g', '('] then
    if ((trimSpaces cs0).drop 4).getLast? == some ')' then
      if (trimSpaces (((trimSpaces cs0).drop 4).dropLast)).isEmpty then
        .error ⟨"empty avg list"⟩
      else
        match parseOddsList (splitTop ',' (((trimSpaces cs0).drop 4).dropLast)) with
        | .error e => .error e
        | .ok ns => .ok (.avg ns)
    else .error ⟨"missing closing parenthesis"⟩
  else (parseOdds (trimSpaces cs0)).map .lit

/-- Modelled from the spec: a single market `<odds>/<odds>`; a missing or
extra `/` separator is a `ParseError`. -/
def parseLeg (cs : List Char) : Except ParseError LegOdds :=
  match splitTop '/' cs with
  | [a, b] =>
    match parseSide a, parseSide b with
    | .ok s1, .ok s2 => .ok ⟨s1, s2⟩
    | .error e, _ => .error e
    | .ok _, .error e => .error e
  | [_] => .error ⟨"missing separator"⟩
  | _ => .error ⟨"unexpected extra separator"⟩

/-- Parses each leg of a comma-separated parlay; fails on the first bad leg
(all-or-nothing). -/
def parseLegList : List (List Char) → Except ParseError (List LegOdds)
  | [] => .ok []
  | cs :: rest =>
    match parseLeg cs, parseLegList rest with
    | .ok l, .ok ls => .ok (l :: ls)
    | .error e, _ => .error e
    | .ok _, .error e => .error e

/-- Modelled from the spec: the OddsParser in `market_odds` mode — a
comma-separated list of `<odds>/<odds>` legs, each side a literal or an
`avg(...)` expression. -/
def parseMarketOdds (s : String) : Except ParseError (List LegOdds) :=
  parseLegList (splitTop ',' s.data)

/-- Tests whether a parse result is an error. -/
def isErrorResult {α : Type} (r : Except ParseError α) : Bool :=
  match r with
  | .error _ => true
  | .ok _ => false

/-- A parsed market side is well formed when its odds are nonzero and an
`avg` list is nonempty. -/
def sideWellFormed : SideExpr → Prop
  | .lit n => n ≠ 0
  | .avg ns => ns ≠ [] ∧ ∀ n ∈ ns, n ≠ 0

/-- Both sides of a parsed leg are well formed. -/
def legWellFormed (l : LegOdds) : Prop :=
  sideWellFormed l.side1 ∧ sideWellFormed l.side2

/-- A parsed request is nonempty and every leg is well formed. -/
def requestWellFormed (legs : List LegOdds) : Prop :=
  legs ≠ [] ∧ ∀ l ∈ legs, legWellFormed l

/-- DynamoDB attribute types, from `aws-cdk-lib/aws-dynamodb`. -/
inductive AttributeType where
  | STRING
  | NUMBER
  | BINARY
deriving DecidableEq, Repr

/-- DynamoDB billing modes, from `aws-cdk-lib/aws-dynamodb`. -/
inductive BillingMode where
  | PAY_PER_REQUEST
  | PROVISIONED
deriving DecidableEq, Repr

/-- A DynamoDB key attribute: name plus attribute type. -/
structure KeyAttribute where
  name : String
  type : AttributeType
deriving DecidableEq, Repr

/-- Properties of a DynamoDB table construct; `sortKey` is `none` when the
construct declares no sort key. -/
structure TableProps where
  partitionKey : KeyAttribute
  sortKey : Option KeyAttribute
  billingMode : BillingMode
deriving DecidableEq, Repr

/-- Properties of the Docker-image Lambda function construct. -/
structure BotFunctionProps where
  memorySize : Nat
  timeoutSeconds : Nat
  envDiscordPublicKey : String
  envDynamoTable : String
deriving DecidableEq, Repr

/-- Properties of the API Gateway construct: proxy flag plus the resource
paths with their methods. -/
structure ApiProps where
  proxy : Bool
  resourcePaths : List (String × List String)
deriving DecidableEq, Repr

/-- Resources provisioned by one stack instantiation. -/
structure StackResources where
  userDataTable : TableProps
  botFunction : BotFunctionProps
  api : ApiProps
deriving DecidableEq, Repr

/-- Embedding of the `DiscordBotLambdaStack` constructor from
`lib/discord-bot-lambda-stack.ts`: a `UserDataTable` keyed solely by the
string attribute `user_id` with pay-per-request billing, a Docker-image
Lambda (256 MB, 30 s) wired to the table, and an API Gateway exposing
`POST /interactions`. `envDiscordPublicKey` models
`process.env.DISCORD_PUBLIC_KEY` (`none` when unset, defaulted to the empty
string) and `tableName` the generated table name. -/
def discordBotLambdaStack (envDiscordPublicKey : Option String)
    (tableName : String) : StackResources :=
  { userDataTable :=
      { partitionKey := { name := "user_id", type := .STRING }
        sortKey := none
        billingMode := .PAY_PER_REQUEST }
    botFunction :=
      { memorySize := 256
        timeoutSeconds := 30
        envDiscordPublicKey := envDiscordPublicKey.getD ""
        envDynamoTable := tableName }
    api := { proxy := false, resourcePaths := [("interactions", ["POST"])] } }

/-- Dividing each list element by a constant divides the sum. -/
lemma sum_map_div (ps : List ℚ) (s : ℚ) : (ps.map (fun p => p / s)).sum = ps.sum / s := by
  induction ps with
  | nil => simp
  | cons p ps ih => simp [ih, add_div]

/-- A successful bisection result satisfies the convergence tolerance. -/
lemma bisect_ok_tol (zs : List ℚ) (fuel : Nat) (lo hi k : ℚ)
    (h : bisect zs fuel lo hi = .ok k) : |probitSum zs k - 1| ≤ tol := by
  induction fuel generalizing lo hi with
  | zero => simp [bisect] at h
  | succ n ih =>
    rw [bisect] at h
    split at h
    · cases h
      assumption
    · split at h
      · exact ih _ _ h
      · exact ih _ _ h

/-- The only error the bisection can produce is `ConvergenceError`. -/
lemma bisect_error_conv (zs : List ℚ) (fuel : Nat) (lo hi : ℚ) (e : CalcError)
    (h : bisect zs fuel lo hi = .error e) : e = .ConvergenceError := by
  induction fuel generalizing lo hi with
  | zero =>
    simp [bisect] at h
    exact h.symm
  | succ n ih =>
    rw [bisect] at h
    split at h
    · cases h
    · split at h
      · exact ih _ _ h
      · exact ih _ _ h

/-- The bisection performs at most `fuel` midpoint evaluations. -/
lemma bisectSteps_le (zs : List ℚ) (fuel : Nat) (lo hi : ℚ) :
    bisectSteps zs fuel lo hi ≤ fuel := by
  induction fuel generalizing lo hi with
  | zero => simp [bisectSteps]
  | succ n ih =>
    rw [bisectSteps]
    split
    · omega
    · split
      · have := ih ((lo + hi) / 2) hi
        omega
      · have := ih lo ((lo + hi) / 2)
        omega

/-- The payout per unit staked is positive at any nonzero American odds. -/
lemma payoutPerUnit_pos (o : Int) (h : o ≠ 0) : 0 < payoutPerUnit o := by
  rw [payoutPerUnit]
  split
  · rename_i hneg
    have ha : (0 : Int) < -o := by omega
    have ha2 : (0 : ℚ) < ((-o : Int) : ℚ) := by exact_mod_cast ha
    positivity
  · rename_i hpos
    have hp : (0 : Int) < o := by omega
    have hp2 : (0 : ℚ) < (o : ℚ) := by exact_mod_cast hp
    positivity

/-- The implied probability of nonzero odds is `1 / (b + 1)` where `b` is the
net payout per unit. -/
lemma oddsToProbability_inv (o : Int) (h : o ≠ 0) :
    oddsToProbability o = 1 / (payoutPerUnit o + 1) := by
  rw [oddsToProbability, payoutPerUnit]
  split
  · rename_i hneg
    have ha : (0 : Int) < -o := by omega
    have ha2 : (0 : ℚ) < ((-o : Int) : ℚ) := by exact_mod_cast ha
    rw [div_add' _ _ _ (by linarith), one_div_div]
    ring_nf
  · rename_i hpos
    have hp : (0 : Int) < o := by omega
    have hp2 : (0 : ℚ) < (o : ℚ) := by exact_mod_cast hp
    rw [div_add' _ _ _ (by norm_num), one_div_div]
    ring_nf

/-- A successfully parsed odds token is a nonzero integer. -/
lemma parseOdds_ne_zero (cs : List Char) (n : Int) (h : parseOdds cs = .ok n) : n ≠ 0 := by
  rw [parseOdds] at h
  split at h
  · cases h
  · split at h
    · cases h
    · cases h
      assumption

/-- A top-level split always yields at least one piece. -/
lemma splitTopAux_ne_nil (sep : Char) (cs : List Char) (d : Nat) (acc : List Char) :
    splitTopAux sep cs d acc ≠ [] := by
  induction cs generalizing d acc with
  | nil => simp [splitTopAux]
  | cons c rest ih =>
    rw [splitTopAux]
    split
    · exact ih _ _
    · split
      · exact ih _ _
      · split
        · simp
        · exact ih _ _

/-- A successfully parsed odds list has one value per piece, all nonzero. -/
lemma parseOddsList_sound (ls : List (List Char)) (ns : List Int)
    (h : parseOddsList ls = .ok ns) : ns.length = ls.length ∧ ∀ n ∈ ns, n ≠ 0 := by
  induction ls generalizing ns with
  | nil =>
    rw [parseOddsList] at h
    cases h
    simp
  | cons cs rest ih =>
    rw [parseOddsList] at h
    split at h
    · rename_i n ns2 hodds hrest
      cases h
      obtain ⟨hlen, hall⟩ := ih _ hrest
      refine ⟨by simp [hlen], ?_⟩
      intro m hm
      rcases List.mem_cons.mp hm with h1 | h2
      · subst h1
        exact parseOdds_ne_zero _ _ hodds
      · exact hall m h2
    · cases h
    · cases h

/-- A successfully parsed market side is well formed. -/
lemma parseSide_sound (cs : List Char) (s : SideExpr) (h : parseSide cs = .ok s) :
    sideWellFormed s := by
  rw [parseSide] at h
  split at h
  · split at h
    · split at h
      · cases h
      · split at h
        · cases h
        · rename_i ns hns
          cases h
          obtain ⟨hlen, hall⟩ := parseOddsList_sound _ _ hns
          refine ⟨?_, hall⟩
          intro hnil
          rw [hnil] at hlen
          exact splitTopAux_ne_nil ',' _ 0 [] (List.length_eq_zero.mp hlen.symm)
    · cases h
  · rcases hodds : parseOdds (trimSpaces cs) with e | n
    · rw [hodds] at h
      cases h
    · rw [hodds] at h
      cases h
      exact parseOdds_ne_zero _ _ hodds

/-- A successfully parsed leg is well formed on both sides. -/
lemma parseLeg_sound (cs : List Char) (l : LegOdds) (h : parseLeg cs = .ok l) :
    legWellFormed l := by
  rw [parseLeg] at h
  split at h
  · split at h
    · rename_i s1 s2 h1 h2
      cases h
      exact ⟨parseSide_sound _ _ h1, parseSide_sound _ _ h2⟩
    · cases h
    · cases h
  · cases h
  · cases h

/-- A successfully parsed leg list has one leg per piece, all well formed. -/
lemma parseLegList_sound (ls : List (List Char)) (legs : List LegOdds)
    (h : parseLegList ls = .ok legs) :
    legs.length = ls.length ∧ ∀ l ∈ legs, legWellFormed l := by
  induction ls generalizing legs with
  | nil =>
    rw [parseLegList] at h
    cases h
    simp
  | cons cs rest ih =>
    rw [parseLegList] at h
    split at h
    · rename_i l ls2 hleg hrest
      cases h
      obtain ⟨hlen, hall⟩ := ih _ hrest
      refine ⟨by simp [hlen], ?_⟩
      intro m hm
      rcases List.mem_cons.mp hm with h1 | h2
      · subst h1
        exact parseLeg_sound _ _ hleg
      · exact hall m h2
    · cases h
    · cases h

/-- C1: for every MarketQuote whose raw implied probabilities sum to more
than 1, the ProportionalWorstCase method succeeds, and any fair probabilities
produced by either devig method sum to 1 within the 1e-9 tolerance. -/
theorem devig_methods_sum_to_one (m : MarketQuote) (hs : 1 < (rawProbs m).sum) :
    (∃ fair, devig m .ProportionalWorstCase = .ok fair) ∧
      ∀ (method : DevigMethod) (fair : List ℚ),
        devig m method = .ok fair → |fair.sum - 1| ≤ tol := by
  constructor
  · refine ⟨devigWc (rawProbs m), ?_⟩
    simp only [devig]
    rw [if_neg (not_le.mpr hs)]
  · intro method fair h
    cases method with
    | ProportionalWorstCase =>
      simp only [devig] at h
      split at h
      · cases h
      · rename_i hgt
        cases h
        have hne : (rawProbs m).sum ≠ 0 := by
          intro h0
          rw [h0] at hgt
          norm_num at hgt
        rw [devigWc, sum_map_div, div_self hne]
        simp [tol]
    | Probit =>
      simp only [devig] at h
      split at h
      · cases h
      · split at h
        · cases h
        · rename_i k hk
          cases h
          exact bisect_ok_tol _ _ _ _ _ hk

/-- C1 witness: on the market −130/110 the ProportionalWorstCase fair
probabilities sum to 1 within tolerance. -/
theorem devig_methods_sum_to_one_witness :
    |([(273 : ℚ) / 503, 230 / 503] : List ℚ).sum - 1| ≤ tol :=
  (devig_methods_sum_to_one (MarketQuote.mk [⟨-130, none⟩, ⟨110, none⟩])
      (by simp only [rawProbs, oddsToProbability, List.map, List.sum_cons, List.sum_nil]
          norm_num)).2
    .ProportionalWorstCase _
    (by simp only [devig, devigWc, rawProbs, oddsToProbability, List.map,
          List.sum_cons, List.sum_nil]
        norm_num)

/-- C2: on a vig-bearing market the ProportionalWorstCase method returns each
raw implied probability divided by their sum; for the market −130/110 the
fair probabilities are 273/503 and 230/503, within 1e-4 of 0.5428 and
0.4572. -/
theorem devig_wc_proportional :
    (∀ m : MarketQuote, 1 < (rawProbs m).sum →
        devig m .ProportionalWorstCase =
          .ok ((rawProbs m).map (fun p => p / (rawProbs m).sum))) ∧
      devig (MarketQuote.mk [⟨-130, none⟩, ⟨110, none⟩]) .ProportionalWorstCase =
        .ok [273 / 503, 230 / 503] ∧
      |(273 : ℚ) / 503 - 5428 / 10000| ≤ 1 / 10000 ∧
      |(230 : ℚ) / 503 - 4572 / 10000| ≤ 1 / 10000 := by
  refine ⟨?_, ?_, by rw [abs_le]; norm_num, by rw [abs_le]; norm_num⟩
  · intro m hs
    simp only [devig, devigWc]
    rw [if_neg (not_le.mpr hs)]
  · simp only [devig, devigWc, rawProbs, oddsToProbability, List.map,
      List.sum_cons, List.sum_nil]
    norm_num

/-- C2 witness: the general proportional formula applied to the concrete
market −110/−110. -/
theorem devig_wc_proportional_witness :
    devig (MarketQuote.mk [⟨-110, none⟩, ⟨-110, none⟩]) .ProportionalWorstCase =
      .ok ((rawProbs (MarketQuote.mk [⟨-110, none⟩, ⟨-110, none⟩])).map
        (fun p => p / (rawProbs (MarketQuote.mk [⟨-110, none⟩, ⟨-110, none⟩])).sum)) :=
  devig_wc_proportional.1 _
    (by simp only [rawProbs, oddsToProbability, List.map, List.sum_cons, List.sum_nil]
        norm_num)

/-- C3: a market whose raw implied probabilities sum to at most 1 is rejected
with a `DomainError` by both devig methods. -/
theorem devig_rejects_no_vig (m : MarketQuote) (method : DevigMethod)
    (h : (rawProbs m).sum ≤ 1) : devig m method = .error .DomainError := by
  cases method <;> (simp only [devig]; rw [if_pos h])

/-- C3 witness: the single-outcome market +100 (raw probability 1/2) is
rejected by both methods. -/
theorem devig_rejects_no_vig_witness :
    devig (MarketQuote.mk [⟨100, none⟩]) .ProportionalWorstCase = .error .DomainError ∧
      devig (MarketQuote.mk [⟨100, none⟩]) .Probit = .error .DomainError :=
  ⟨devig_rejects_no_vig _ _
      (by simp only [rawProbs, oddsToProbability, List.map, List.sum_cons, List.sum_nil]
          norm_num),
    devig_rejects_no_vig _ _
      (by simp only [rawProbs, oddsToProbability, List.map, List.sum_cons, List.sum_nil]
          norm_num)⟩

/-- C4 counterexample: the round trip is not within ±1 for every nonzero
integer — odds of 50 round-trip to −200 and odds of 100 round-trip to
−100. -/
theorem roundTrip_fails_inside_hundred :
    probabilityToOdds (oddsToProbability 50) = .ok (-200) ∧
      ¬|(-200 : Int) - 50| ≤ 1 ∧
      probabilityToOdds (oddsToProbability 100) = .ok (-100) ∧
      ¬|(-100 : Int) - 100| ≤ 1 := by
  refine ⟨?_, by decide, ?_, by decide⟩
  · norm_num [probabilityToOdds, oddsToProbability]
  · norm_num [probabilityToOdds, oddsToProbability]

/-- C4 amended: for every integer American odds value `x` with `x ≤ −100` or
`x > 100`, the round trip `probability_to_odds(odds_to_probability(x))`
returns exactly `x` (in particular within ±1). -/
theorem roundTrip_valid_odds (x : Int) (h : x ≤ -100 ∨ 100 < x) :
    probabilityToOdds (oddsToProbability x) = .ok x := by
  rcases h with h | h
  · have hx : x < 0 := by omega
    have ha : (100 : ℚ) ≤ ((-x : Int) : ℚ) := by
      have h2 : (100 : Int) ≤ -x := by omega
      exact_mod_cast h2
    set a : ℚ := ((-x : Int) : ℚ) with hadef
    have ha0 : 0 < a := lt_of_lt_of_le (by norm_num) ha
    have hden : 0 < a + 100 := by linarith
    rw [oddsToProbability, if_pos hx, probabilityToOdds]
    have hp0 : 0 < a / (a + 100) := div_pos ha0 hden
    have hp1 : a / (a + 100) < 1 := by
      rw [div_lt_one hden]
      linarith
    rw [if_neg (by push_neg; exact ⟨hp0, hp1⟩)]
    have hhalf : (1 : ℚ) / 2 ≤ a / (a + 100) := by
      rw [div_le_div_iff₀ (by norm_num) hden]
      linarith
    rw [if_pos hhalf]
    have hval : 100 * (a / (a + 100)) / (1 - a / (a + 100)) = a := by
      have h1p : 1 - a / (a + 100) = 100 / (a + 100) := by
        field_simp
      rw [h1p]
      field_simp
    rw [hval, hadef, round_intCast]
    norm_num
  · have hx : ¬x < 0 := by omega
    have hb : (100 : ℚ) < ((x : Int) : ℚ) := by exact_mod_cast h
    set b : ℚ := ((x : Int) : ℚ) with hbdef
    have hden : 0 < b + 100 := by linarith
    rw [oddsToProbability, if_neg hx, probabilityToOdds]
    have hp0 : 0 < 100 / (b + 100) := by positivity
    have hp1 : 100 / (b + 100) < 1 := by
      rw [div_lt_one hden]
      linarith
    rw [if_neg (by push_neg; exact ⟨hp0, hp1⟩)]
    have hlt : 100 / (b + 100) < 1 / 2 := by
      rw [div_lt_div_iff₀ hden (by norm_num)]
      linarith
    rw [if_neg (not_le.mpr hlt)]
    have hval : 100 * (1 - 100 / (b + 100)) / (100 / (b + 100)) = b := by
      have h1p : 1 - 100 / (b + 100) = b / (b + 100) := by
        field_simp
      rw [h1p]
      field_simp
    rw [hval, hbdef, round_intCast]

/-- C4 witness: the round trip at −130 returns −130. -/
theorem roundTrip_valid_odds_witness :
    probabilityToOdds (oddsToProbability (-130)) = .ok (-130) :=
  roundTrip_valid_odds (-130) (Or.inl (by norm_num))

/-- C5: the ParlayCombiner returns the product of the leg probabilities, is
the identity on a single leg, and combines 0.5 and 0.4 to exactly 0.20. -/
theorem parlayCombine_product :
    (∀ ps : List ℚ, parlayCombine ps = ps.prod) ∧
      (∀ p : ℚ, parlayCombine [p] = p) ∧
      parlayCombine [1 / 2, 2 / 5] = 1 / 5 := by
  have key : ∀ ps : List ℚ, parlayCombine ps = ps.prod := by
    intro ps
    simp only [parlayCombine]
    exact (List.prod_eq_foldl).symm
  refine ⟨key, fun p => by rw [key]; simp, by rw [key]; norm_num⟩

/-- C6: at nonzero American odds the payout per unit is `100/|o|` for
negative odds and `o/100` for positive odds; for a fair probability in (0,1)
`compute_ev` returns `100·(p·payout − (1 − p))`, and outside (0,1) it fails
with a `DomainError`. -/
theorem computeEv_spec (o : Int) (p : ℚ) (_ho : o ≠ 0) :
    (o < 0 → payoutPerUnit o = 100 / |(o : ℚ)|) ∧
      (0 < o → payoutPerUnit o = (o : ℚ) / 100) ∧
      (0 < p → p < 1 → computeEv o p = .ok (100 * (p * payoutPerUnit o - (1 - p)))) ∧
      ((p ≤ 0 ∨ 1 ≤ p) → computeEv o p = .error .DomainError) := by
  refine ⟨?_, ?_, ?_, ?_⟩
  · intro h
    have ho2 : (o : ℚ) < 0 := by exact_mod_cast h
    rw [payoutPerUnit, if_pos h, abs_of_neg ho2]
    push_cast
    ring_nf
  · intro h
    rw [payoutPerUnit, if_neg (by omega)]
  · intro h1 h2
    rw [computeEv, if_neg (by push_neg; exact ⟨h1, h2⟩)]
  · intro h
    rw [computeEv, if_pos h]

/-- C6 witness: at bet odds −110 with fair probability 1/2 the EV is
−50/11 percent, and fair probability 2 is rejected. -/
theorem computeEv_spec_witness :
    computeEv (-110) (1 / 2) = .ok (-50 / 11) ∧
      computeEv (-110) 2 = .error .DomainError := by
  constructor
  · have h := (computeEv_spec (-110) (1 / 2) (by norm_num)).2.2.1 (by norm_num) (by norm_num)
    rw [h]
    norm_num [payoutPerUnit]
  · exact (computeEv_spec (-110) 2 (by norm_num)).2.2.2 (Or.inr (by norm_num))

/-- C7: at nonzero odds the clamped Kelly fraction lies in [0,1], the
recommended stake fraction is never negative, and when the fair probability
is at most the implied probability of the bet odds the stake fraction is
exactly 0, for every Kelly variant. -/
theorem kelly_clamp (kt : KellyType) (o : Int) (p : ℚ) (h : o ≠ 0) :
    (0 ≤ kellyFraction o p ∧ kellyFraction o p ≤ 1) ∧
      0 ≤ stakeFraction kt o p ∧
      (p ≤ oddsToProbability o → stakeFraction kt o p = 0) := by
  have hk0 : 0 ≤ kellyFraction o p := le_max_left _ _
  have hdiv : 0 < kellyDivisor kt := by
    cases kt <;> norm_num [kellyDivisor]
  refine ⟨⟨hk0, ?_⟩, div_nonneg hk0 hdiv.le, ?_⟩
  · exact max_le (by norm_num) (min_le_left _ _)
  · intro hp
    have hb := payoutPerUnit_pos o h
    rw [oddsToProbability_inv o h] at hp
    set b := payoutPerUnit o with hbdef
    have hnum : p * b - (1 - p) ≤ 0 := by
      rw [le_div_iff₀ (by linarith)] at hp
      nlinarith
    have hratio : (p * b - (1 - p)) / b ≤ 0 :=
      div_nonpos_iff.mpr (Or.inr ⟨hnum, hb.le⟩)
    have hkf : kellyFraction o p = 0 := by
      simp only [kellyFraction, ← hbdef]
      exact max_eq_left (le_trans (min_le_right _ _) hratio)
    rw [stakeFraction, hkf, zero_div]

/-- C7 witness: at even odds +100 and fair probability 1/2 (no edge) the
Kelly fraction is nonnegative and the half-Kelly stake fraction is 0. -/
theorem kelly_clamp_witness :
    0 ≤ kellyFraction 100 (1 / 2) ∧ stakeFraction .Half 100 (1 / 2) = 0 :=
  ⟨(kelly_clamp .Half 100 (1 / 2) (by norm_num)).1.1,
    (kelly_clamp .Half 100 (1 / 2) (by norm_num)).2.2
      (by norm_num [oddsToProbability])⟩

/-- C8: an empty `avg()` list, a missing `/` separator, a malformed integer
and a zero odds value are each rejected with a `ParseError`, and every
successfully parsed request is complete and well formed (nonempty, all odds
nonzero, all avg lists nonempty) — success is all-or-nothing. -/
theorem oddsParser_error_handling :
    isErrorResult (parseMarketOdds "avg()/110") = true ∧
      isErrorResult (parseMarketOdds "130") = true ∧
      isErrorResult (parseMarketOdds "1a0/110") = true ∧
      isErrorResult (parseMarketOdds "0/110") = true ∧
      ∀ (s : String) (r : List LegOdds), parseMarketOdds s = .ok r → requestWellFormed r := by
  refine ⟨by decide, by decide, by decide, by decide, ?_⟩
  intro s r h
  rw [parseMarketOdds] at h
  obtain ⟨hlen, hall⟩ := parseLegList_sound _ _ h
  refine ⟨?_, hall⟩
  intro hnil
  rw [hnil] at hlen
  exact splitTopAux_ne_nil ',' _ 0 [] (List.length_eq_zero.mp hlen.symm)

/-- C8 witness: the parsed request for "-130/110" is well formed. -/
theorem oddsParser_error_handling_witness :
    requestWellFormed [⟨SideExpr.lit (-130), SideExpr.lit 110⟩] :=
  oddsParser_error_handling.2.2.2.2 "-130/110" _ rfl

/-- C9: the Probit root-finder terminates on every input — its iteration
count is at most the hard cap of 100, and it either converges to the 1e-9
tolerance or fails with a `ConvergenceError`, never returning an unconverged
estimate. -/
theorem probitSolve_terminates (zs : List ℚ) :
    bisectSteps zs iterationCap 0 bracketHi ≤ 100 ∧
      ((∃ k, probitSolve zs = .ok k ∧ |probitSum zs k - 1| ≤ tol) ∨
        probitSolve zs = .error .ConvergenceError) := by
  constructor
  · have h := bisectSteps_le zs iterationCap 0 bracketHi
    simpa [iterationCap] using h
  · rcases h : probitSolve zs with e | k
    · right
      rw [probitSolve] at h
      rw [bisect_error_conv _ _ _ _ _ h]
    · left
      refine ⟨k, rfl, ?_⟩
      rw [probitSolve] at h
      exact bisect_ok_tol _ _ _ _ _ h

/-- C10: every instantiation of the stack provisions the user-settings table
with the sole partition key `user_id` of string type, no sort key, as a
pay-per-request key-value table. -/
theorem userDataTable_key (pk : Option String) (tn : String) :
    (discordBotLambdaStack pk tn).userDataTable.partitionKey.name = "user_id" ∧
      (discordBotLambdaStack pk tn).userDataTable.partitionKey.type = AttributeType.STRING ∧
      (discordBotLambdaStack pk tn).userDataTable.sortKey = none ∧
      (discordBotLambdaStack pk tn).userDataTable.billingMode = BillingMode.PAY_PER_REQUEST :=
  ⟨rfl, rfl, rfl, rfl⟩

end DevigBot
